import Mathlib

/-!
Verification development for the altitude-bin discovery core of the RST
make_fov tool (select_alt_groups.c).  Heights are modelled as exact
rationals.  The library arithmetic on the rationals is sealed against
definitional unfolding, so the embedding computes with its own
operations qadd, qsub, qmul, qdiv, qfloor, qceil, qtrunc, each proved
equal to the corresponding ideal operation below; qtrunc is the C cast
(int), truncation toward zero.  Out-of-range array accesses of the C
code surface as the error value RErr.oob, the fatal capacity and
configuration exits as RErr.capacity and RErr.degenerate, and the
possibly non-terminating merge loop is driven by an explicit fuel
parameter (fuel exhaustion yields none).
-/

namespace RST

/-! ## Computable rational arithmetic and its bridge lemmas -/

/-- Computable addition on the rationals. -/
def qadd (a b : ℚ) : ℚ :=
  Rat.divInt (a.num * (b.den : ℤ) + b.num * (a.den : ℤ)) ((a.den : ℤ) * (b.den : ℤ))

/-- Computable subtraction on the rationals. -/
def qsub (a b : ℚ) : ℚ :=
  Rat.divInt (a.num * (b.den : ℤ) - b.num * (a.den : ℤ)) ((a.den : ℤ) * (b.den : ℤ))

/-- Computable multiplication on the rationals. -/
def qmul (a b : ℚ) : ℚ := Rat.divInt (a.num * b.num) ((a.den : ℤ) * (b.den : ℤ))

/-- Computable division on the rationals (zero when the divisor is zero). -/
def qdiv (a b : ℚ) : ℚ := Rat.divInt (a.num * (b.den : ℤ)) ((a.den : ℤ) * b.num)

/-- Computable floor of a rational: integer division of the numerator by
the positive denominator. -/
def qfloor (q : ℚ) : ℤ := q.num / (q.den : ℤ)

/-- Computable ceiling of a rational. -/
def qceil (q : ℚ) : ℤ := -((-q.num) / (q.den : ℤ))

/-- The C cast (int)(q): truncation toward zero. -/
def qtrunc (q : ℚ) : ℤ := q.num.tdiv (q.den : ℤ)

theorem den_cast_ne_zero (q : ℚ) : ((q.den : ℤ) : ℚ) ≠ 0 := by
  have := q.den_nz
  push_cast
  exact_mod_cast this

theorem qadd_eq (a b : ℚ) : qadd a b = a + b := by
  unfold qadd
  rw [Rat.divInt_eq_div]
  conv_rhs => rw [← Rat.num_div_den a, ← Rat.num_div_den b]
  have ha := den_cast_ne_zero a
  have hb := den_cast_ne_zero b
  push_cast at *
  field_simp
  try ring

theorem qsub_eq (a b : ℚ) : qsub a b = a - b := by
  unfold qsub
  rw [Rat.divInt_eq_div]
  conv_rhs => rw [← Rat.num_div_den a, ← Rat.num_div_den b]
  have ha := den_cast_ne_zero a
  have hb := den_cast_ne_zero b
  push_cast at *
  field_simp
  try ring

theorem qmul_eq (a b : ℚ) : qmul a b = a * b := by
  unfold qmul
  rw [Rat.divInt_eq_div]
  conv_rhs => rw [← Rat.num_div_den a, ← Rat.num_div_den b]
  have ha := den_cast_ne_zero a
  have hb := den_cast_ne_zero b
  push_cast at *
  field_simp
  try ring

theorem qdiv_eq (a b : ℚ) : qdiv a b = a / b := by
  unfold qdiv
  rw [Rat.divInt_eq_div]
  rcases eq_or_ne b 0 with hb0 | hb0
  · subst hb0
    simp
  · have hbn : ((b.num : ℤ) : ℚ) ≠ 0 := by
      exact_mod_cast Rat.num_ne_zero.mpr hb0
    conv_rhs => rw [← Rat.num_div_den a, ← Rat.num_div_den b]
    have ha := den_cast_ne_zero a
    have hb := den_cast_ne_zero b
    push_cast at *
    field_simp
    try ring

theorem qfloor_eq (q : ℚ) : qfloor q = ⌊q⌋ := (Rat.floor_def).symm

theorem qceil_eq (q : ℚ) : qceil q = ⌈q⌉ := by
  have h3 : (⌊-q⌋ : ℤ) = (-q.num) / ((q.den : ℤ)) := by
    rw [Rat.floor_def]
    simp [Rat.neg_num, Rat.neg_den]
  have h4 : (⌊-q⌋ : ℤ) = -⌈q⌉ := Int.floor_neg
  rw [qceil, ← h3, h4, neg_neg]

/-- One interval held by the boundary reconciler: lower limit, upper
limit, peak value and priority (new_mins / new_maxs / new_peaks /
priority in sort_expand_boundaries). -/
structure Entry where
  lo : ℚ
  hi : ℚ
  pk : ℚ
  pr : ℕ
  deriving DecidableEq, Repr

/-- Abnormal outcomes of the embedded code: the two fatal exits of the C
source and an out-of-range array access (undefined behaviour in C). -/
inductive RErr where
  | degenerate
  | capacity
  | oob
  deriving DecidableEq, Repr

instance {ε α : Type} [DecidableEq ε] [DecidableEq α] :
    DecidableEq (Except ε α) := fun a b =>
  match a, b with
  | .ok x, .ok y =>
    match decEq x y with
    | isTrue h => isTrue (by rw [h])
    | isFalse h => isFalse (by intro hc; cases hc; exact h rfl)
  | .error x, .error y =>
    match decEq x y with
    | isTrue h => isTrue (by rw [h])
    | isFalse h => isFalse (by intro hc; cases hc; exact h rfl)
  | .ok _, .error _ => isFalse (by intro hc; cases hc)
  | .error _, .ok _ => isFalse (by intro hc; cases hc)

/-! ## A structural stable insertion sort (the library merge sort does
not reduce definitionally) -/

/-- Insert an element into a list, before the first element that it
le-precedes. -/
def insertLe {α : Type} (le : α → α → Bool) (a : α) : List α → List α
  | [] => [a]
  | b :: rest => if le a b then a :: b :: rest else b :: insertLe le a rest

/-- Stable insertion sort with a Bool comparison. -/
def sortLe {α : Type} (le : α → α → Bool) : List α → List α
  | [] => []
  | a :: rest => insertLe le a (sortLe le rest)

theorem insertLe_perm {α : Type} (le : α → α → Bool) (a : α) (l : List α) :
    (insertLe le a l).Perm (a :: l) := by
  induction l with
  | nil => exact List.Perm.refl _
  | cons b rest ih =>
    cases hle : le a b with
    | true => simp [insertLe, hle]
    | false =>
      rw [insertLe, if_neg (by simp [hle])]
      exact (List.Perm.cons b ih).trans (List.Perm.swap a b rest)

theorem sortLe_perm {α : Type} (le : α → α → Bool) (l : List α) :
    (sortLe le l).Perm l := by
  induction l with
  | nil => exact List.Perm.refl _
  | cons a rest ih =>
    exact (insertLe_perm le a (sortLe le rest)).trans (List.Perm.cons a ih)

/-- Ascending stable sort of rationals (helper for the modelled
statistics collaborators). -/
def sortQ (l : List ℚ) : List ℚ := sortLe (fun a b => decide (a ≤ b)) l

theorem insertLe_sorted (a : ℚ) {l : List ℚ} (hl : List.Sorted (· ≤ ·) l) :
    List.Sorted (· ≤ ·) (insertLe (fun x y => decide (x ≤ y)) a l) := by
  induction l with
  | nil => simp [insertLe]
  | cons b rest ih =>
    have hbs := List.sorted_cons.mp hl
    cases hab : decide (a ≤ b) with
    | true =>
      have h : a ≤ b := of_decide_eq_true hab
      rw [insertLe, if_pos hab]
      refine List.sorted_cons.mpr ⟨?_, hl⟩
      intro c hc
      rcases List.mem_cons.mp hc with rfl | hc2
      · exact h
      · exact le_trans h (hbs.1 c hc2)
    | false =>
      have h : ¬ a ≤ b := of_decide_eq_false hab
      rw [insertLe, if_neg (by simp [hab])]
      refine List.sorted_cons.mpr ⟨?_, ih hbs.2⟩
      intro c hc
      rcases List.mem_cons.mp
          ((insertLe_perm (fun x y => decide (x ≤ y)) a rest).mem_iff.mp hc) with
        rfl | hc2
      · exact le_of_not_le h
      · exact hbs.1 c hc2

theorem sortQ_sorted (l : List ℚ) : List.Sorted (· ≤ ·) (sortQ l) := by
  induction l with
  | nil => simp [sortQ, sortLe]
  | cons a rest ih => exact insertLe_sorted a ih

theorem sortQ_perm_congr {l l' : List ℚ} (h : l.Perm l') : sortQ l = sortQ l' := by
  refine List.eq_of_perm_of_sorted (r := (· ≤ ·)) ?_ (sortQ_sorted l) (sortQ_sorted l')
  exact ((sortLe_perm _ l).trans h).trans (sortLe_perm _ l').symm

/-! ## Modelled statistics collaborators (their code is not under src/) -/

/-- Modelled from the spec: the extrema helper min(values) over the raw
sample set (float_absmin of stat_utils, not under src/). -/
def float_absmin (l : List ℚ) : ℚ := (sortQ l).headD 0

/-- Modelled from the spec: the extrema helper max(values) over the raw
sample set (float_absmax of stat_utils, not under src/). -/
def float_absmax (l : List ℚ) : ℚ := (sortQ l).getLastD 0

theorem float_absmin_perm {l l' : List ℚ} (h : l.Perm l') :
    float_absmin l = float_absmin l' := by
  unfold float_absmin
  rw [sortQ_perm_congr h]

theorem float_absmax_perm {l l' : List ℚ} (h : l.Perm l') :
    float_absmax l = float_absmax l' := by
  unfold float_absmax
  rw [sortQ_perm_congr h]

/-- Modelled from the spec: the histogram builder contract, equal-width
bins spanning the limit range, values outside excluded; the last bin is
taken right-closed.  Returns (counts, left edges). -/
def histogramQ (vh : List ℚ) (nbin : ℕ) (lo hi : ℚ) : List ℤ × List ℚ :=
  let w := qdiv (qsub hi lo) ((nbin : ℚ))
  ((List.range nbin).map (fun (i : ℕ) =>
      if i + 1 = nbin then
        (vh.countP (fun v => decide (qadd lo (qmul ((i : ℚ)) w) ≤ v ∧ v ≤ hi)) : ℤ)
      else
        (vh.countP (fun v => decide (qadd lo (qmul ((i : ℚ)) w) ≤ v ∧
          v < qadd lo (qmul (qadd ((i : ℚ)) 1) w))) : ℤ)),
   (List.range nbin).map (fun (i : ℕ) => qadd lo (qmul ((i : ℚ)) w)))

theorem histogramQ_perm {vh vh' : List ℚ} (h : vh.Perm vh') (nbin : ℕ) (lo hi : ℚ) :
    histogramQ vh nbin lo hi = histogramQ vh' nbin lo hi := by
  have hc : ∀ p : ℚ → Bool, vh.countP p = vh'.countP p := fun p => h.countP_eq p
  simp only [histogramQ, hc]

/-- Modelled from the spec: absolute_max_index, the index of the single
largest count, first occurrence on ties (int_argabsmax of stat_utils,
not under src/). -/
def int_argabsmax (bins : List ℤ) : ℕ :=
  (List.range bins.length).foldl
    (fun best i => if bins.getD best 0 < bins.getD i 0 then i else best) 0

/-- Modelled from the spec: stable ascending argsort of the values
(smart_argsort_float of sort.h, not under src/).  Ties keep the
original index order. -/
def smart_argsort_float (v : List ℚ) : List ℕ :=
  sortLe (fun a b =>
      decide (v.getD a 0 < v.getD b 0 ∨ (v.getD a 0 = v.getD b 0 ∧ a ≤ b)))
    (List.range v.length)

/-! ## The estimator pieces (select_alt_groups.c) -/

/-- Lines 100-107 of select_alt_groups.c: after relative-maximum
detection, possibly add the absolute maximum.  nmax is the number of
flagged maxima; the code tests hist_bins[nmax] and sets ismax[nmax]
(out-of-range reads beyond the list are modelled as 0). -/
def augmentAbsMax (bins : List ℤ) (ismax : List Bool) (min_pnts : ℤ) :
    List Bool × ℕ :=
  let nmax := ismax.count true
  let i := int_argabsmax bins
  if ismax.getD i false = false ∧ min_pnts ≤ bins.getD nmax 0 then
    (ismax.set nmax true, nmax + 1)
  else (ismax, nmax)

/-- Lines 205-216 of select_alt_groups.c: the two-sigma acceptance test
for a fitted component with centre c and width s; x is the x-value of
the histogram bin that seeded the component (private->x[argmax[j]]). -/
def acceptGauss (c s x lo hi : ℚ) : Bool :=
  let vlow := if qsub c (qmul 2 s) < lo then lo else qsub c (qmul 2 s)
  let vhigh := if hi < qadd c (qmul 2 s) then hi else qadd c (qmul 2 s)
  decide (vlow ≤ x ∧ x ≤ vhigh)

/-- Lines 114-131 of select_alt_groups.c: the no-maxima uniform
partition fallback.  Returns the (vh_mins, vh_maxs) pair or the fatal
capacity error. -/
def fallbackNoMax (lmin lmax box : ℚ) (max_vbin : ℕ) :
    Except RErr (List ℚ × List ℚ) :=
  let n : ℕ := (qceil (qdiv (qsub lmax lmin) box)).toNat
  let vmin : ℚ := qsub (qadd (qdiv (qsub lmax lmin) ((n : ℚ))) lmin) box
  if max_vbin < n then .error .capacity
  else .ok ((List.range n).map (fun (i : ℕ) => qadd vmin (qmul ((i : ℚ)) box)),
            (List.range n).map (fun (i : ℕ) => qadd (qadd vmin (qmul ((i : ℚ)) box)) box))

/-- Loop of lines 254-260 of select_alt_groups.c (second fallback):
n remaining iterations, prev is the previous upper limit. -/
def fb2Loop (vhmax box : ℚ) : ℕ → ℚ → List (ℚ × ℚ) → List (ℚ × ℚ)
  | 0, _, acc => acc
  | n + 1, prev, acc =>
    if prev < vhmax then
      let mx := if vhmax < qadd prev box then vhmax else qadd prev box
      fb2Loop vhmax box n mx (acc ++ [(prev, mx)])
    else acc

/-- Lines 241-262 of select_alt_groups.c: fallback applied when the fit
accepted no intervals; clamped to the global limits and stopping at the
global upper limit (no capacity check exists on this path). -/
def fallback2 (lmin lmax vhmin vhmax box : ℚ) : List (ℚ × ℚ) :=
  let j : ℕ := (qceil (qdiv (qsub lmax lmin) box)).toNat
  let m0 : ℚ :=
    let v := qsub (qadd (qdiv (qsub lmax lmin) ((j : ℚ))) lmin) box
    if v < vhmin then vhmin else v
  let x0 : ℚ := if vhmax < qadd m0 box then vhmax else qadd m0 box
  (m0, x0) :: fb2Loop vhmax box (j - 1) x0 []

/-! ## The boundary reconciler (sort_expand_boundaries) -/

/-- Replace the upper limit of the last interval (writes new_maxs[inew-1]). -/
def setLastHi (h : ℚ) : List Entry → List Entry
  | [] => []
  | [e] => [⟨e.lo, h, e.pk, e.pr⟩]
  | e :: e' :: rest => e :: setLastHi h (e' :: rest)

/-- Lines 401-402 of select_alt_groups.c, on the reversed output list:
while(hmin <= new_mins[inew-1] && inew > 0) inew--.  The condition reads
new_mins[inew-1] before testing inew > 0, so reaching the empty list is
an out-of-range access (index -1). -/
def collapseAux (hmin : ℚ) : List Entry → Except RErr (List Entry)
  | [] => .error .oob
  | e :: rest => if hmin ≤ e.lo then collapseAux hmin rest else .ok (e :: rest)

/-- Lines 387-407 of select_alt_groups.c: resolution of an overlap
between the incoming candidate (sorted index k, lower bound hmin, upper
bound cmax) and the last accepted interval.  num is the candidate count
(the filler-priority offset). -/
def resolveOverlap (num k : ℕ) (hmin cmax : ℚ) (out : List Entry) :
    Except RErr (List Entry) :=
  match out.getLast? with
  | none => .error .oob
  | some last =>
    if last.pr < k then
      .ok (out ++ [⟨last.hi, ((qceil cmax : ℤ) : ℚ),
                    qadd last.hi (qdiv (qsub ((qceil cmax : ℤ) : ℚ) last.hi) 2),
                    out.length + num⟩])
    else
      (collapseAux hmin out.reverse).map (fun r =>
        match r with
        | [] => []
        | e :: rest => ((⟨e.lo, hmin, e.pk, e.pr⟩ : Entry) :: rest).reverse)

/-- Lines 426-434 of select_alt_groups.c: the gap-bridging inner loop,
appending n fillers each starting at the current last upper limit. -/
def bridgeLoop (num : ℕ) (vspan : ℚ) : ℕ → List Entry → List Entry
  | 0, out => out
  | n + 1, out =>
    let m := (out.getLast?).elim 0 (fun e => e.hi)
    bridgeLoop num vspan n
      (out ++ [⟨m, ((qceil (qadd m vspan) : ℤ) : ℚ), qadd m (qdiv vspan 2),
                out.length + num⟩])

/-- Inputs of the reconciler merge pass. -/
structure RecEnv where
  num : ℕ
  max_vbin : ℕ
  lmin : ℚ
  lmax : ℚ
  vhmin : ℚ
  vhmax : ℚ
  box : ℚ
  mins : List ℚ
  maxs : List ℚ
  peaks : List ℚ
  sargs : List ℕ
  deriving DecidableEq

/-- One iteration of the outer candidate loop (lines 375-468 of
select_alt_groups.c) at outer index i.  Returns the next outer index
and the new output list; the gap-bridging branch overwrites the outer
index with its own loop counter (the C code reuses the variable i), so
there the next index is vnum + 1.  Ends with the capacity test of line
463. -/
def mergeStep (E : RecEnv) (i : ℕ) (out : List Entry) :
    Except RErr (ℕ × List Entry) :=
  let k := E.sargs.getD i 0
  let hmin := E.mins.getD k 0
  let cmax := E.maxs.getD k 0
  let cpk := E.peaks.getD k 0
  let next : Except RErr (ℕ × List Entry) :=
    match out.getLast? with
    | some last =>
      if cpk ≤ last.hi ∨ hmin ≤ last.pk then
        (resolveOverlap E.num k hmin cmax out).map (fun l => (i + 1, l))
      else if last.hi < hmin then
        let vnum := (qtrunc (qdiv (qsub hmin last.hi) E.box)).toNat
        if vnum = 0 then .ok (i + 1, setLastHi hmin out)
        else .ok (vnum + 1,
          bridgeLoop E.num (qdiv (qsub hmin last.hi) ((vnum : ℚ))) vnum out)
      else
        if hmin < cmax then
          .ok (i + 1, out ++ [⟨hmin, ((qceil cmax : ℤ) : ℚ), cpk, k⟩])
        else .ok (i + 1, out)
    | none =>
      if hmin < cmax then
        .ok (i + 1, out ++ [⟨((qfloor hmin : ℤ) : ℚ), ((qceil cmax : ℤ) : ℚ), cpk, k⟩])
      else .ok (i + 1, out)
  next.bind (fun p => if E.max_vbin ≤ p.2.length then .error .capacity else .ok p)

/-- The outer candidate loop driven by fuel; none models running out of
fuel (the loop need not terminate because of the index reuse). -/
def mergeLoop (E : RecEnv) : ℕ → ℕ → List Entry → Option (Except RErr (List Entry))
  | 0, _, _ => none
  | fuel + 1, i, out =>
    if i < E.num then
      match mergeStep E i out with
      | .error e => some (.error e)
      | .ok p => mergeLoop E fuel p.1 p.2
    else some (.ok out)

/-- Lines 350-370 of select_alt_groups.c: the lower-range filler loop,
checking the capacity after each insertion; j is the filler index. -/
def lowerLoop (num max_vbin : ℕ) (lmin vspan : ℚ) : ℕ → ℕ → List Entry →
    Except RErr (List Entry)
  | _, 0, out => .ok out
  | j, n + 1, out =>
    let h0 := qadd lmin (qmul ((j : ℚ)) vspan)
    let h := if h0 < lmin then lmin else h0
    let out' := out ++ [⟨((qfloor h : ℤ) : ℚ), ((qceil (qadd h vspan) : ℤ) : ℚ),
                         qadd h (qdiv vspan 2), out.length + num⟩]
    if max_vbin ≤ out'.length then .error .capacity
    else lowerLoop num max_vbin lmin vspan (j + 1) n out'

/-- Lines 331-372 of select_alt_groups.c: if the lowest candidate lower
bound exceeds the observed minimum, either extend it downward (possibly
mutating the input mins array) or insert lower-range fillers. -/
def lowerFiller (num max_vbin : ℕ) (lmin vhmin box : ℚ) (mins : List ℚ)
    (sargs : List ℕ) : Except RErr (List ℚ × List Entry) :=
  let s0 := sargs.getD 0 0
  let m0 := mins.getD s0 0
  if lmin < m0 then
    let vnum := (qtrunc (qdiv (qsub m0 lmin) box)).toNat
    if vnum = 0 then
      let v0 : ℚ := ((qfloor lmin : ℤ) : ℚ)
      .ok (mins.set s0 (if v0 < vhmin then vhmin else v0), [])
    else
      (lowerLoop num max_vbin lmin (qdiv (qsub m0 lmin) ((vnum : ℚ))) 0 vnum []).map
        (fun l => (mins, l))
  else .ok (mins, [])

/-- Lines 486-498 of select_alt_groups.c: the upper-range filler loop.
No capacity test exists in this loop. -/
def upperLoop (num : ℕ) (vhmax vspan : ℚ) : ℕ → List Entry → List Entry
  | 0, out => out
  | n + 1, out =>
    let m := (out.getLast?).elim 0 (fun e => e.hi)
    if m < vhmax then
      let h0 := qadd m vspan
      let h := if vhmax < h0 then vhmax else h0
      upperLoop num vhmax vspan n
        (out ++ [⟨m, ((qceil h : ℤ) : ℚ), qadd (qdiv (qsub h m) 2) m,
                  out.length + num⟩])
    else out

/-- Lines 470-500 of select_alt_groups.c: extend or pad the upper range
up to the observed maximum.  The guard reads new_maxs[inew-1], an
out-of-range access when the output list is still empty. -/
def upperFiller (num : ℕ) (lmax vhmax box : ℚ) (out : List Entry) :
    Except RErr (List Entry) :=
  match out.getLast? with
  | none => .error .oob
  | some last =>
    if last.hi < lmax then
      let vnum := (qtrunc (qdiv (qsub lmax last.hi) box)).toNat
      if vnum = 0 then
        let h : ℚ := ((qceil lmax : ℤ) : ℚ)
        .ok (setLastHi (if vhmax < h then vhmax else h) out)
      else .ok (upperLoop num vhmax (qdiv (qsub lmax last.hi) ((vnum : ℚ))) vnum out)
    else .ok out

/-- Merge loop followed by the upper-range filler. -/
def sortExpandGo (E : RecEnv) (fuel : ℕ) (out0 : List Entry) :
    Option (Except RErr (List Entry)) :=
  match mergeLoop E fuel 0 out0 with
  | none => none
  | some (.error e) => some (.error e)
  | some (.ok out) =>
    match upperFiller E.num E.lmax E.vhmax E.box out with
    | .error e => some (.error e)
    | .ok res => some (.ok res)

/-- Lines 307-518 of select_alt_groups.c: sort the candidate intervals,
pad below, merge overlaps and gaps, pad above.  Returns the reconciled
entries, an error, or none when the merge loop exhausts its fuel. -/
def sort_expand_boundaries (fuel num max_vbin : ℕ)
    (lmin lmax vhmin vhmax box : ℚ) (mins maxs peaks : List ℚ) :
    Option (Except RErr (List Entry)) :=
  if num = 0 then some (.ok []) else
  let sargs := smart_argsort_float mins
  match lowerFiller num max_vbin lmin vhmin box mins sargs with
  | .error e => some (.error e)
  | .ok p =>
    sortExpandGo ⟨num, max_vbin, lmin, lmax, vhmin, vhmax, box,
                  p.1, maxs, peaks, sargs⟩ fuel p.2

/-- Lines 194-232 of select_alt_groups.c: walk the fitted components,
apply the two-sigma acceptance test, and collect the clamped
three-sigma intervals with the first amplitude (params[1]) as peak.
The capacity test precedes every insertion. -/
def acceptLoop (params xs : List ℚ) (argm : List ℕ) (nmax max_vbin : ℕ)
    (vhmin vhmax : ℚ) : Except RErr (List (ℚ × ℚ × ℚ)) :=
  (List.range nmax).foldl (fun acc jj =>
    acc.bind (fun l =>
      let c := params.getD (2 + jj * 3) 0
      let s := params.getD (3 + jj * 3) 0
      let sx := xs.getD (argm.getD jj 0) 0
      if acceptGauss c s sx vhmin vhmax then
        if max_vbin ≤ l.length then .error .capacity
        else .ok (l ++ [(if qsub c (qmul 3 s) < vhmin then vhmin else qsub c (qmul 3 s),
                         if vhmax < qadd c (qmul 3 s) then vhmax else qadd c (qmul 3 s),
                         params.getD 1 0)])
      else .ok l)) (.ok [])

/-- The estimator body after the histogram and the extrema have been
computed (select_alt_groups.c lines 94-290).  fitF is the abstract
nonlinear least-squares collaborator (mpfit): it receives the bin
centres, the counts and the seeded parameter vector and returns a
status and the fitted parameter vector.  relmaxF is the abstract
window-based relative-maxima detector (int_argrelmax). -/
def selectCore (fitF : List ℚ → List ℚ → List ℚ → ℤ × List ℚ)
    (relmaxF : List ℤ → List Bool) (fuel nbin : ℕ) (bins : List ℤ)
    (edges : List ℚ) (lmin lmax vhmin vhmax box : ℚ) (min_pnts : ℤ)
    (max_vbin : ℕ) : Option (Except RErr (List ℚ × List ℚ)) :=
  let ismax0 := (List.range nbin).map (fun i => (relmaxF bins).getD i false)
  let am := augmentAbsMax bins ismax0 min_pnts
  if am.2 = 0 then
    match fallbackNoMax lmin lmax box max_vbin with
    | .error e => some (.error e)
    | .ok r => some (.ok r)
  else
    let flagged := (List.range nbin).filter (fun i => am.1.getD i false)
    let argm := flagged.take am.2 ++ List.replicate (am.2 - flagged.length) 0
    let hw := qdiv (qsub (edges.getD 1 0) (edges.getD 0 0)) 2
    let xs := (List.range nbin).map (fun i => qadd (edges.getD i 0) hw)
    let ys := bins.map (fun b => ((b : ℤ) : ℚ))
    let params0 : List ℚ :=
      (am.2 : ℚ) :: (List.range am.2).flatMap (fun jj =>
        [((bins.getD (argm.getD jj 0) 0 : ℤ) : ℚ),
         xs.getD (argm.getD jj 0) 0, qdiv box 2])
    let fr := fitF xs ys params0
    if 1 < fr.1 then
      match acceptLoop fr.2 xs argm am.2 max_vbin vhmin vhmax with
      | .error e => some (.error e)
      | .ok cands =>
        if cands.length = 0 then
          some (.ok ((fallback2 lmin lmax vhmin vhmax box).map Prod.fst,
                     (fallback2 lmin lmax vhmin vhmax box).map Prod.snd))
        else
          (sort_expand_boundaries fuel cands.length max_vbin lmin lmax vhmin
              vhmax box (cands.map Prod.fst) (cands.map (fun c => c.2.1))
              (cands.map (fun c => c.2.2))).map
            (Except.map (fun l => (l.map Entry.lo, l.map Entry.hi)))
    else
      some (.ok ((fallback2 lmin lmax vhmin vhmax box).map Prod.fst,
                 (fallback2 lmin lmax vhmin vhmax box).map Prod.snd))

/-- Lines 77-78 of select_alt_groups.c: the histogram bin count, the C
cast of the range over a quarter of the nominal width, clipped to 10. -/
def nbinOf (vhmin vhmax box : ℚ) : ℤ :=
  let nb0 := qtrunc (qdiv (qsub vhmax vhmin) (qmul box (qdiv 1 4)))
  if 10 < nb0 then 10 else nb0

/-- Lines 44-290 of select_alt_groups.c.  The samples vh enter only
through the histogram and the extrema helpers. -/
def select_alt_groups (fitF : List ℚ → List ℚ → List ℚ → ℤ × List ℚ)
    (relmaxF : List ℤ → List Bool) (fuel : ℕ) (vh : List ℚ)
    (vhmin vhmax box : ℚ) (min_pnts : ℤ) (max_vbin : ℕ) :
    Option (Except RErr (List ℚ × List ℚ)) :=
  if nbinOf vhmin vhmax box ≤ 0 then some (.error .degenerate)
  else
    selectCore fitF relmaxF fuel (nbinOf vhmin vhmax box).toNat
      (histogramQ vh (nbinOf vhmin vhmax box).toNat vhmin vhmax).1
      (histogramQ vh (nbinOf vhmin vhmax box).toNat vhmin vhmax).2
      (float_absmin vh) (float_absmax vh) vhmin vhmax box min_pnts max_vbin

/-! ## Helper lemmas -/

theorem getD_map_range (f : ℕ → ℚ) {n i : ℕ} (h : i < n) :
    ((List.range n).map f).getD i 0 = f i := by
  rw [List.getD_eq_getElem?_getD, List.getElem?_map, List.getElem?_range h]
  rfl

theorem collapseAux_eq_dropWhile (hmin : ℚ) (l : List Entry) :
    collapseAux hmin l =
      match l.dropWhile (fun x => decide (hmin ≤ x.lo)) with
      | [] => .error .oob
      | e :: rest => .ok (e :: rest) := by
  induction l with
  | nil => rfl
  | cons e rest ih =>
    by_cases h : hmin ≤ e.lo
    · have h1 : collapseAux hmin (e :: rest) = collapseAux hmin rest := by
        simp [collapseAux, h]
      have h2 : (e :: rest).dropWhile (fun x => decide (hmin ≤ x.lo)) =
          rest.dropWhile (fun x => decide (hmin ≤ x.lo)) := by
        simp [List.dropWhile_cons, h]
      rw [h1, h2]
      exact ih
    · have h1 : collapseAux hmin (e :: rest) = .ok (e :: rest) := by
        simp [collapseAux, h]
      have h2 : (e :: rest).dropWhile (fun x => decide (hmin ≤ x.lo)) = e :: rest := by
        simp [List.dropWhile_cons, h]
      rw [h1, h2]

/-! ## Claim C2 -/

/-- C2 (code_bug evidence): on the concrete input with one candidate
interval [10, 12] (peak 11), observed range [3, 12], global limits
[0, 100], nominal width 3 and capacity 10, the reconciler returns
intervals with bounds [3, 7], [6, 10], [10, 12]; the first pair
overlaps (upper limit 7 exceeds the next lower limit 6), against the
claim that every consecutive pair satisfies upper at most next lower.
The overlap comes from the floor/ceil adjustment of the two lower-range
fillers spanning [3, 10] with span 3.5. -/
theorem sort_expand_overlapping_output :
    (sort_expand_boundaries 5 1 10 3 12 0 100 3 [10] [12] [11]).map
        (Except.map (List.map (fun e => (e.lo, e.hi)))) =
      some (.ok [(3, 7), (6, 10), (10, 12)])
    ∧ ¬ ((7 : ℚ) ≤ 6) := by
  constructor
  · decide
  · decide

/-! ## Claim C3 -/

/-- C3 (code_bug evidence): on the concrete input with one candidate
interval [100, 110], observed range [100, 200], global limits [0, 1000],
nominal width 10 and capacity max_vbin = 2, the reconciler returns
normally with 10 intervals: the upper-range filler loop of lines
486-498 contains no capacity test, so the returned interval count
exceeds the configured maximum (writing past the buffers in C) instead
of raising the fatal capacity error. -/
theorem sort_expand_capacity_overflow :
    (sort_expand_boundaries 5 1 2 100 200 0 1000 10 [100] [110] [105]).map
        (Except.map List.length) = some (.ok 10)
    ∧ (2 : ℕ) < 10 := by
  constructor
  · decide
  · decide

/-! ## Claim C5 -/

/-- C5 (code_bug evidence): for the histogram counts [0, 0, 9, 9, 0]
with no flagged relative maxima (a side-by-side tie hides the peak from
the windowed detector) and threshold min_pnts = 2, the global maximum
lives at index 2, its count 9 meets the threshold and it is not
flagged, yet augmentAbsMax leaves the maxima set empty: the code tests
hist_bins[nmax] = hist_bins[0] = 0 against the threshold and would flag
ismax[nmax], using the count of already-found maxima instead of the
global-maximum index. -/
theorem augment_absmax_misses_global_max :
    augmentAbsMax [0, 0, 9, 9, 0] [false, false, false, false, false] 2 =
      ([false, false, false, false, false], 0)
    ∧ int_argabsmax [0, 0, 9, 9, 0] = 2
    ∧ [false, false, false, false, false].getD 2 false = false
    ∧ (2 : ℤ) ≤ [0, 0, 9, 9, 0].getD 2 0 := by
  refine ⟨by decide, by decide, by decide, by decide⟩

/-! ## Claim C10 -/

/-- C10 (counterexample): the upper-range filler guard of line 471 reads
new_maxs[inew - 1] with inew = 0.  With the single zero-width candidate
[100, 100] every candidate is dropped, the output list stays empty, and
the guard accesses index -1, so the reconciler reaches the
out-of-range branch, against the claim that these reads always happen
with inew at least 1. -/
theorem sort_expand_oob_upper_guard :
    sort_expand_boundaries 5 1 5 100 150 0 1000 10 [100] [100] [100] =
      some (.error .oob) := by decide

/-- C10 (amended): both guarded sites can access index -1.  First
input: three candidates sharing the integer lower bound 100 drive the
backward-collapse loop of line 401 until inew = 0, whereupon the loop
condition re-reads new_mins[inew - 1].  Second input: a zero-width
candidate leaves the output empty and the upper-range guard of line 471
reads new_maxs[-1].  In the embedding with checked indexing both runs
end in the out-of-range error. -/
theorem sort_expand_oob_reachable :
    sort_expand_boundaries 5 3 100 100 300 0 1000 10 [100, 100, 100]
      [200, 160, 150] [150, 150, 50] = some (.error .oob)
    ∧ sort_expand_boundaries 5 1 5 200 250 0 1000 10 [200] [200] [200] =
      some (.error .oob) := by
  exact ⟨by decide, by decide⟩

/-! ## Claim C6 -/

/-- Definition following the words of claim C6: the component is
accepted exactly when its own fitted centre lies within its own
global-limit-clamped two-sigma window. -/
def acceptGaussSpecC6 (c s lo hi : ℚ) : Bool :=
  let vlow := if qsub c (qmul 2 s) < lo then lo else qsub c (qmul 2 s)
  let vhigh := if hi < qadd c (qmul 2 s) then hi else qadd c (qmul 2 s)
  decide (vlow ≤ c ∧ c ≤ vhigh)

/-- C6 (counterexample): with fitted centre 200, width 10, seed bin
x-value 100 and global limits [0, 1000], the code rejects the component
although its centre trivially lies inside its own two-sigma window and
neither clamp is active (the window [180, 220] is not truncated by the
global limits): the code tests the x-value of the seeding histogram
bin, not the fitted centre, so the check also fails when the fit moves
the centre more than two sigma away from the seed. -/
theorem acceptGauss_rejects_moved_center :
    acceptGauss 200 10 100 0 1000 = false
    ∧ acceptGaussSpecC6 200 10 0 1000 = true
    ∧ ((0 : ℚ) ≤ 200 - 2 * 10 ∧ (200 : ℚ) + 2 * 10 ≤ 1000) := by
  refine ⟨by decide, by decide, by norm_num, by norm_num⟩

/-- C6 (amended): a fitted component with centre c and width s is
accepted exactly when the x-value x of the histogram bin that seeded it
lies within the clamped two-sigma window, that is when c - 2s ≤ x,
lo ≤ x, x ≤ c + 2s and x ≤ hi; in particular the check can fail with no
clamp active, when the fit moved the centre more than two sigma away
from the seeding bin. -/
theorem acceptGauss_iff (c s x lo hi : ℚ) :
    acceptGauss c s x lo hi = true ↔
      c - 2 * s ≤ x ∧ lo ≤ x ∧ x ≤ c + 2 * s ∧ x ≤ hi := by
  simp only [acceptGauss, qsub_eq, qadd_eq, qmul_eq, decide_eq_true_eq]
  constructor
  · rintro ⟨ha, hb⟩
    refine ⟨?_, ?_, ?_, ?_⟩
    · split_ifs at ha with h1
      · linarith
      · linarith
    · split_ifs at ha with h1
      · linarith
      · linarith
    · split_ifs at hb with h2
      · linarith
      · linarith
    · split_ifs at hb with h2
      · linarith
      · linarith
  · rintro ⟨h1, h2, h3, h4⟩
    constructor
    · split_ifs with h5
      · exact h2
      · exact h1
    · split_ifs with h6
      · exact h4
      · exact h3

/-! ## Claim C4 -/

/-- Definition following the words of claim C4: when the last interval
is less important (higher numeric priority value) than the incoming
candidate, extend with the candidate; when the incoming candidate is
less important, collapse trailing intervals whose lower bound is at or
above the candidate lower bound, clamp the last retained upper bound
down to the candidate lower bound, and drop the candidate. -/
def resolveOverlapSpecC4 (num k : ℕ) (hmin cmax : ℚ) (out : List Entry) :
    Except RErr (List Entry) :=
  match out.getLast? with
  | none => .error .oob
  | some last =>
    if k < last.pr then
      .ok (out ++ [⟨last.hi, ((qceil cmax : ℤ) : ℚ),
                    qadd last.hi (qdiv (qsub ((qceil cmax : ℤ) : ℚ) last.hi) 2),
                    out.length + num⟩])
    else
      (collapseAux hmin out.reverse).map (fun r =>
        match r with
        | [] => []
        | e :: rest => ((⟨e.lo, hmin, e.pk, e.pr⟩ : Entry) :: rest).reverse)

/-- C4 (counterexample): the last accepted interval [100, 200] has
priority 0 and the incoming candidate has index 1, so the incoming
candidate is the less important side; the claim then requires the
collapse-and-drop outcome (clamping the last upper bound down to 150
and dropping the candidate), but the code instead appends the clipped
candidate [200, 160]: the two branch conditions of the claim are
swapped relative to the code. -/
theorem resolveOverlap_priority_inverted :
    resolveOverlap 2 1 150 160 [⟨100, 200, 150, 0⟩] =
      .ok [⟨100, 200, 150, 0⟩, ⟨200, 160, 180, 3⟩]
    ∧ resolveOverlapSpecC4 2 1 150 160 [⟨100, 200, 150, 0⟩] =
      .ok [⟨100, 150, 150, 0⟩]
    ∧ ¬ (resolveOverlap 2 1 150 160 [⟨100, 200, 150, 0⟩] =
         resolveOverlapSpecC4 2 1 150 160 [⟨100, 200, 150, 0⟩]) := by
  refine ⟨by decide, by decide, by decide⟩

/-- C4 (amended): in the overlap resolution, strictly lower numeric
priority on the last accepted interval means the last interval wins:
the incoming candidate is appended clipped to start at the last upper
bound, with upper bound the ceiling of the candidate upper bound and a
filler priority.  Otherwise (the last interval priority at or above the
candidate index) trailing intervals whose lower bound is at or above
the candidate lower bound are collapsed, the last retained upper bound
is clamped down to the candidate lower bound, and the candidate is
dropped; collapsing past the whole list is the out-of-range access. -/
theorem resolveOverlap_characterization (num k : ℕ) (hmin cmax : ℚ)
    (out : List Entry) (last : Entry) (hl : out.getLast? = some last) :
    (last.pr < k →
      resolveOverlap num k hmin cmax out =
        .ok (out ++ [⟨last.hi, ((⌈cmax⌉ : ℤ) : ℚ),
                      last.hi + (((⌈cmax⌉ : ℤ) : ℚ) - last.hi) / 2,
                      out.length + num⟩]))
    ∧ (k ≤ last.pr →
      resolveOverlap num k hmin cmax out =
        match out.reverse.dropWhile (fun x => decide (hmin ≤ x.lo)) with
        | [] => .error .oob
        | e :: rest => .ok ((⟨e.lo, hmin, e.pk, e.pr⟩ :: rest).reverse)) := by
  constructor
  · intro h
    simp only [resolveOverlap, hl, if_pos h, qadd_eq, qdiv_eq, qsub_eq, qceil_eq]
  · intro h
    simp only [resolveOverlap, hl, if_neg (not_lt.mpr h), collapseAux_eq_dropWhile]
    cases hd : out.reverse.dropWhile (fun x => decide (hmin ≤ x.lo)) with
    | nil => rfl
    | cons e rest => rfl

/-- C4 (witness): the characterization applied at the concrete overlap
of the counterexample input, on the branch where the last interval is
the more important side. -/
theorem resolveOverlap_characterization_witness :
    resolveOverlap 2 1 150 160 [⟨100, 200, 150, 0⟩] =
      .ok [⟨100, 200, 150, 0⟩, ⟨200, 160, 180, 3⟩] := by
  have h := (resolveOverlap_characterization 2 1 150 160 [⟨100, 200, 150, 0⟩]
      ⟨100, 200, 150, 0⟩ rfl).1 (by norm_num)
  rw [h]
  norm_num [Entry.mk.injEq]

/-! ## Claim C8 -/

/-- The reconciler inputs of the non-terminating run: observed range
[100, 300], global limits [0, 1000], nominal width 10, capacity 100,
and four candidates [100, 200], [150, 160], [170, 171], [185, 186]
with peak values 150, 250, 120, 500 (already ascending, so the argsort
is the identity and no lower filler is inserted). -/
def envC8 : RecEnv :=
  ⟨4, 100, 100, 300, 0, 1000, 10, [100, 150, 170, 185], [200, 160, 171, 186],
   [150, 250, 120, 500], [0, 1, 2, 3]⟩

/-- First state of the merge-pass cycle: outer index 3, one interval. -/
def outB : List Entry := [⟨100, 170, 150, 0⟩]

/-- Second state of the cycle: outer index 2, the interval of outB plus
the bridge filler [170, 185]. -/
def outC : List Entry := [⟨100, 170, 150, 0⟩, ⟨170, 185, Rat.divInt 355 2, 5⟩]

theorem mergeLoop_envC8_cycle (n : ℕ) :
    mergeLoop envC8 n 3 outB = none ∧ mergeLoop envC8 n 2 outC = none := by
  induction n with
  | zero => exact ⟨rfl, rfl⟩
  | succ n ih =>
    refine ⟨?_, ?_⟩
    · exact (show mergeLoop envC8 (n + 1) 3 outB = mergeLoop envC8 n 2 outC
        from rfl).trans ih.2
    · exact (show mergeLoop envC8 (n + 1) 2 outC = mergeLoop envC8 n 3 outB
        from rfl).trans ih.1

theorem mergeLoop_envC8_none (fuel : ℕ) : mergeLoop envC8 fuel 0 [] = none := by
  match fuel with
  | 0 => rfl
  | 1 => rfl
  | 2 => rfl
  | n + 3 =>
    exact (show mergeLoop envC8 (n + 3) 0 [] = mergeLoop envC8 n 3 outB
      from rfl).trans (mergeLoop_envC8_cycle n).1

/-- C8 (code_bug evidence): the merge pass never terminates on the
envC8 input, whatever fuel it is given.  Processing candidate 3 finds a
gap, bridges it with one filler, and — because the inner bridge loop of
line 426 reuses the outer loop index i — resets the outer index to 2;
candidate 2 then collapses the bridge filler back off the list and
restores the previous state, so the loop alternates between the two
states forever.  The capacity check never fires because the list
length oscillates between 1 and 2. -/
theorem sort_expand_nonterminating (fuel : ℕ) :
    sort_expand_boundaries fuel 4 100 100 300 0 1000 10
      [100, 150, 170, 185] [200, 160, 171, 186] [150, 250, 120, 500] = none := by
  have h : sort_expand_boundaries fuel 4 100 100 300 0 1000 10
      [100, 150, 170, 185] [200, 160, 171, 186] [150, 250, 120, 500] =
      sortExpandGo envC8 fuel [] := rfl
  rw [h]
  unfold sortExpandGo
  rw [mergeLoop_envC8_none fuel]

/-! ## Claim C9 -/

/-- C9: permuting the sample array changes nothing: the samples enter
select_alt_groups only through the histogram counts and the extrema,
all functions of the multiset of virtual heights, so the returned
interval count and vh_mins/vh_maxs contents (or the error) are
unchanged under permutation, for every abstract fitting and
maxima-detection collaborator and every fuel. -/
theorem select_alt_groups_perm_invariant
    (fitF : List ℚ → List ℚ → List ℚ → ℤ × List ℚ)
    (relmaxF : List ℤ → List Bool) (fuel : ℕ) {vh vh' : List ℚ}
    (hperm : vh.Perm vh') (vhmin vhmax box : ℚ) (min_pnts : ℤ) (max_vbin : ℕ) :
    select_alt_groups fitF relmaxF fuel vh vhmin vhmax box min_pnts max_vbin =
      select_alt_groups fitF relmaxF fuel vh' vhmin vhmax box min_pnts max_vbin := by
  unfold select_alt_groups
  rw [histogramQ_perm hperm, float_absmin_perm hperm, float_absmax_perm hperm]

/-- C9 (witness): the invariance applied to a concrete three-sample
array and a permutation of it. -/
theorem select_alt_groups_perm_invariant_witness :
    (([100, 110, 100] : List ℚ).Perm [110, 100, 100])
    ∧ select_alt_groups (fun _ _ _ => (0, [])) (fun _ => []) 3 [100, 110, 100]
        0 1000 30 1 10 =
      select_alt_groups (fun _ _ _ => (0, [])) (fun _ => []) 3 [110, 100, 100]
        0 1000 30 1 10 :=
  ⟨by decide, select_alt_groups_perm_invariant _ _ 3 (by decide) 0 1000 30 1 10⟩

/-! ## Claim C7 -/

/-- C7: with no surviving maxima the fallback returns exactly
ceil((observed_max - observed_min) / vh_box) intervals (the count is
written with the computable ceiling qceil, equal to the ideal ceiling
by qceil_eq), each of width vh_box, contiguous, the first lower bound
being observed_min plus the observed span over the count minus vh_box;
the fatal capacity error fires exactly when the count exceeds
max_vbin. -/
theorem fallbackNoMax_uniform (lmin lmax box : ℚ) (max_vbin : ℕ)
    (hbox : 0 < box) (hle : lmin ≤ lmax) :
    ((qceil (qdiv (qsub lmax lmin) box)).toNat ≤ max_vbin →
      ∃ mins maxs : List ℚ,
        fallbackNoMax lmin lmax box max_vbin = .ok (mins, maxs)
        ∧ mins.length = (qceil (qdiv (qsub lmax lmin) box)).toNat
        ∧ maxs.length = mins.length
        ∧ (∀ i, i < mins.length → maxs.getD i 0 - mins.getD i 0 = box)
        ∧ (∀ i, i + 1 < mins.length → mins.getD (i + 1) 0 = maxs.getD i 0)
        ∧ (0 < mins.length →
            mins.getD 0 0 = lmin + (lmax - lmin) / ((mins.length : ℕ) : ℚ) - box))
    ∧ (max_vbin < (qceil (qdiv (qsub lmax lmin) box)).toNat →
        fallbackNoMax lmin lmax box max_vbin = .error .capacity) := by
  constructor
  · intro hcap
    simp only [fallbackNoMax]
    rw [if_neg (not_lt.mpr hcap)]
    refine ⟨_, _, rfl, ?_, ?_, ?_, ?_, ?_⟩
    · simp
    · simp
    · intro i hi
      simp only [List.length_map, List.length_range] at hi
      rw [getD_map_range _ hi, getD_map_range _ hi]
      simp only [qadd_eq, qsub_eq, qmul_eq, qdiv_eq]
      ring
    · intro i hi
      simp only [List.length_map, List.length_range] at hi
      rw [getD_map_range _ hi, getD_map_range _ (by omega : i < _)]
      simp only [qadd_eq, qsub_eq, qmul_eq, qdiv_eq]
      push_cast
      ring
    · intro h0
      simp only [List.length_map, List.length_range] at h0 ⊢
      rw [getD_map_range _ h0]
      simp only [qadd_eq, qsub_eq, qmul_eq, qdiv_eq]
      push_cast
      ring
  · intro hcap
    simp only [fallbackNoMax]
    rw [if_pos hcap]

/-- C7 (witness): the fallback at observed range [100, 110], nominal
width 30 and capacity 10; the count is ceil(10/30) = 1 and the single
interval is [80, 110]. -/
theorem fallbackNoMax_uniform_witness :
    ((qceil (qdiv (qsub (110 : ℚ) 100) 30)).toNat ≤ 10 →
      ∃ mins maxs : List ℚ,
        fallbackNoMax 100 110 30 10 = .ok (mins, maxs)
        ∧ mins.length = (qceil (qdiv (qsub (110 : ℚ) 100) 30)).toNat
        ∧ maxs.length = mins.length
        ∧ (∀ i, i < mins.length → maxs.getD i 0 - mins.getD i 0 = 30)
        ∧ (∀ i, i + 1 < mins.length → mins.getD (i + 1) 0 = maxs.getD i 0)
        ∧ (0 < mins.length →
            mins.getD 0 0 = 100 + ((110 : ℚ) - 100) / ((mins.length : ℕ) : ℚ) - 30))
    ∧ (10 < (qceil (qdiv (qsub (110 : ℚ) 100) 30)).toNat →
        fallbackNoMax 100 110 30 10 = .error .capacity) :=
  fallbackNoMax_uniform 100 110 30 10 (by norm_num) (by norm_num)

/-! ## Claim C1 -/

/-- C1 (counterexample): on samples [100, 110] with global limits
[0, 1000], nominal width 30, minimum points 1 and capacity 10, the
no-maxima fallback path returns the single interval [80, 110]: its
union contains the height 90, which lies outside [observed_min,
observed_max] intersected with the global limits, namely [100, 110], so
the union is strictly larger than the claim allows (the fallback
anchors the partition below the observed minimum and applies no
clamping). -/
theorem select_alt_groups_fallback_not_exact :
    select_alt_groups (fun _ _ _ => (0, [])) (fun _ => []) 1 [100, 110]
      0 1000 30 1 10 = some (.ok ([80], [110]))
    ∧ float_absmin [100, 110] = 100 ∧ float_absmax [100, 110] = 110
    ∧ ((80 : ℚ) < 100 ∧ (80 : ℚ) ≤ 90 ∧ (90 : ℚ) ≤ 110 ∧ (90 : ℚ) < 100) := by
  refine ⟨by decide, by decide, by decide, by decide, by decide, by decide, by decide⟩

/-- C1 (amended): on the no-maxima fallback path the returned intervals
form a contiguous block: consecutive intervals share their boundary,
the first lower bound is at or below the observed minimum (strictly
below whenever the observed span is not an exact multiple of the
nominal width, since no global-limit clamping is applied), and the last
upper bound is at or above the observed maximum — so the union of the
returned intervals contains [observed_min, observed_max] but does not
in general equal it. -/
theorem fallbackNoMax_union_contains (lmin lmax box : ℚ) (max_vbin : ℕ)
    (hbox : 0 < box) (hlt : lmin < lmax)
    (hcap : (qceil (qdiv (qsub lmax lmin) box)).toNat ≤ max_vbin) :
    ∃ mins maxs : List ℚ,
      fallbackNoMax lmin lmax box max_vbin = .ok (mins, maxs)
      ∧ 0 < mins.length
      ∧ maxs.length = mins.length
      ∧ (∀ i, i + 1 < mins.length → maxs.getD i 0 = mins.getD (i + 1) 0)
      ∧ mins.getD 0 0 ≤ lmin
      ∧ lmax ≤ maxs.getD (mins.length - 1) 0
      ∧ ((lmax - lmin) / ((mins.length : ℕ) : ℚ) < box → mins.getD 0 0 < lmin) := by
  have hqpos : (0 : ℚ) < (lmax - lmin) / box := div_pos (by linarith) hbox
  have hc1 : 0 < ⌈(lmax - lmin) / box⌉ := Int.ceil_pos.mpr hqpos
  have hn1 : 1 ≤ (⌈(lmax - lmin) / box⌉).toNat := by omega
  have hcast : (((⌈(lmax - lmin) / box⌉).toNat : ℕ) : ℚ) =
      ((⌈(lmax - lmin) / box⌉ : ℤ) : ℚ) := by
    exact_mod_cast Int.toNat_of_nonneg (le_of_lt hc1)
  have hnQ : (0 : ℚ) < (((⌈(lmax - lmin) / box⌉).toNat : ℕ) : ℚ) := by
    exact_mod_cast hn1
  have hle2 : (lmax - lmin) / box ≤ (((⌈(lmax - lmin) / box⌉).toNat : ℕ) : ℚ) := by
    rw [hcast]
    exact Int.le_ceil _
  have hmain : lmax - lmin ≤ (((⌈(lmax - lmin) / box⌉).toNat : ℕ) : ℚ) * box := by
    rw [div_le_iff₀ hbox] at hle2
    linarith
  have hq2 : (lmax - lmin) / (((⌈(lmax - lmin) / box⌉).toNat : ℕ) : ℚ) ≤ box := by
    rw [div_le_iff₀ hnQ, mul_comm]
    exact hmain
  simp only [fallbackNoMax]
  rw [if_neg (not_lt.mpr hcap)]
  simp only [qadd_eq, qsub_eq, qmul_eq, qdiv_eq, qceil_eq]
  refine ⟨_, _, rfl, ?_, ?_, ?_, ?_, ?_, ?_⟩
  · simpa using hc1
  · simp
  · intro i hi
    simp only [List.length_map, List.length_range] at hi
    rw [getD_map_range _
        (show i < (⌈(lmax - lmin) / box⌉).toNat by omega),
      getD_map_range _ hi]
    push_cast
    ring
  · rw [getD_map_range _
        (show 0 < (⌈(lmax - lmin) / box⌉).toNat by omega)]
    push_cast
    linarith [hq2]
  · simp only [List.length_map, List.length_range]
    rw [getD_map_range _
        (show (⌈(lmax - lmin) / box⌉).toNat - 1 < (⌈(lmax - lmin) / box⌉).toNat
          by omega)]
    rw [Nat.cast_sub hn1]
    push_cast
    have h10 : ((((⌈(lmax - lmin) / box⌉).toNat : ℕ) : ℚ) - 1) *
        ((lmax - lmin) / (((⌈(lmax - lmin) / box⌉).toNat : ℕ) : ℚ)) =
        ((lmax - lmin) / (((⌈(lmax - lmin) / box⌉).toNat : ℕ) : ℚ)) *
          (((⌈(lmax - lmin) / box⌉).toNat : ℕ) : ℚ) -
        ((lmax - lmin) / (((⌈(lmax - lmin) / box⌉).toNat : ℕ) : ℚ)) := by
      ring
    have h9 : ((lmax - lmin) / (((⌈(lmax - lmin) / box⌉).toNat : ℕ) : ℚ)) *
        (((⌈(lmax - lmin) / box⌉).toNat : ℕ) : ℚ) = lmax - lmin :=
      div_mul_cancel₀ _ (ne_of_gt hnQ)
    have h8 := mul_le_mul_of_nonneg_left hq2
      (show (0 : ℚ) ≤ (((⌈(lmax - lmin) / box⌉).toNat : ℕ) : ℚ) - 1 by
        have : (1 : ℚ) ≤ (((⌈(lmax - lmin) / box⌉).toNat : ℕ) : ℚ) := by
          exact_mod_cast hn1
        linarith)
    linarith [h8, h9, h10]
  · intro hstrict
    simp only [List.length_map, List.length_range] at hstrict
    rw [getD_map_range _
        (show 0 < (⌈(lmax - lmin) / box⌉).toNat by omega)]
    push_cast
    linarith [hstrict]

/-- C1 (amended, witness): the containment applied at observed range
[100, 110], nominal width 30, capacity 10. -/
theorem fallbackNoMax_union_contains_witness :
    ∃ mins maxs : List ℚ,
      fallbackNoMax 100 110 30 10 = .ok (mins, maxs)
      ∧ 0 < mins.length
      ∧ maxs.length = mins.length
      ∧ (∀ i, i + 1 < mins.length → maxs.getD i 0 = mins.getD (i + 1) 0)
      ∧ mins.getD 0 0 ≤ 100
      ∧ (110 : ℚ) ≤ maxs.getD (mins.length - 1) 0
      ∧ (((110 : ℚ) - 100) / ((mins.length : ℕ) : ℚ) < 30 → mins.getD 0 0 < 100) :=
  fallbackNoMax_union_contains 100 110 30 10 (by norm_num) (by norm_num) (by decide)

end RST
